import Mathlib

/-!
Shallow embedding of the DNS tunneling bridge (`dns_server.py`) and proofs
about its specification.

Conventions of the embedding:
* Python byte/character strings are modeled as `List Nat` of their byte values
  (e.g. `'a'` is `97`, `'='` is `61`).
* Python integers are `Nat` (all sizes and indices in the modeled code are
  non-negative), except `Client.last_received_index`, which is initialized to
  `-1` and is therefore an `Int`.
* Fallible code is `Option`/`Except`: a `none`/`.error` result of a modeling
  function marks a Python exception escaping the modeled function (or a failed
  `assert`), while an explicit `Option` inside an `.ok` result models Python's
  `None` return value.
* Fields of Python objects that the modeled operations never read or write
  (loggers, timestamps, identifier strings) are omitted from the structures.
-/

/-- Embeds `pack_byte_to_hn`: `(val << 8) & 0xffff`. -/
def pack_byte_to_hn (val : Nat) : Nat :=
  (val <<< 8) &&& 0xffff

/-- Embeds `pack_2byte_to_hn`: `((low_byte << 8) | high_byte) & 0xffff`. -/
def pack_2byte_to_hn (low_byte high_byte : Nat) : Nat :=
  ((low_byte <<< 8) ||| high_byte) &&& 0xffff

/-- Embeds `pack_ushort_to_hn`: `((val & 0xff) << 8) | ((val & 0xff00) >> 8) & 0xffff`
(note that `&` binds tighter than `|` in Python). -/
def pack_ushort_to_hn (val : Nat) : Nat :=
  ((val &&& 0xff) <<< 8) ||| (((val &&& 0xff00) >>> 8) &&& 0xffff)

/-! ## Subdomain cursor arithmetic (`Encoder.get_next_sdomain`)

The Python code reverses the string, then increments position 0, 1, ... as
long as a carry propagates.  Each visited position is guarded by
`assert(val >= ord('a'))`; a value `>= ord('z')` wraps to `'a'` with carry,
anything else is incremented and the loop stops.  `incrementRev` models the
loop over the reversed character list; `none` is the failed assertion. -/

/-- The carry loop of `Encoder.get_next_sdomain` over the reversed character
list.  `none` models the `assert(val >= Encoder.MIN_VAL_DOMAIN_SYMBOL)`
failing at a visited position. -/
def incrementRev : List Nat → Option (List Nat)
  | [] => some []
  | v :: rest =>
    if v < 97 then none
    else if 122 ≤ v then (incrementRev rest).map (fun r => 97 :: r)
    else some ((v + 1) :: rest)

/-- Embeds `Encoder.get_next_sdomain` on a character-code list. -/
def get_next_sdomain (current_sdomain : List Nat) : Option (List Nat) :=
  (incrementRev current_sdomain.reverse).map List.reverse

/-- Total version of `incrementRev` (proof device): on lists whose entries are
all `≥ 97` it agrees with `incrementRev`. -/
def incRevT : List Nat → List Nat
  | [] => []
  | v :: rest => if 122 ≤ v then 97 :: incRevT rest else (v + 1) :: rest

/-- Base-26 decrement on a reversed character list (proof device: the inverse
of `incRevT` on in-range lists). -/
def decRevT : List Nat → List Nat
  | [] => []
  | v :: rest => if v = 97 then 122 :: decRevT rest else (v - 1) :: rest

/-- All character codes of the list are in `'a'..'z'` (`97..122`). -/
def ValidChars (l : List Nat) : Prop := ∀ c ∈ l, 97 ≤ c ∧ c ≤ 122

instance : DecidablePred ValidChars := fun l =>
  inferInstanceAs (Decidable (∀ c ∈ l, 97 ≤ c ∧ c ≤ 122))

/-- Numeric value of a reversed cursor: head is the least significant base-26
digit, digit `0` is `'a'`. -/
def valRev : List Nat → Nat
  | [] => 0
  | v :: rest => (v - 97) + 26 * valRev rest

/-- The characterization of the inputs on which `get_next_sdomain`'s internal
assertion fires: reading the string right to left, some run of characters
`≥ 'z'` (each propagating a carry) is followed by a character below `'a'`. -/
def abortsOnCarry (s : List Nat) : Bool :=
  match s.reverse.dropWhile (fun v => decide (122 ≤ v)) with
  | [] => false
  | v :: _ => decide (v < 97)

/-! ## IPv6Encoder -/

/-- Embeds `IPv6Encoder._align_hextets`: pad the hextet list to 8 entries. -/
def align_hextets (hextets : List Nat) : List Nat :=
  if hextets.length < 8 then hextets ++ List.replicate (8 - hextets.length) 0
  else hextets

/-- The packing loop of `IPv6Encoder._encode_data_prefix`: consecutive byte
pairs become one hextet, a trailing odd byte becomes a high-byte hextet. -/
def packPairs : List Nat → List Nat
  | [] => []
  | [a] => [pack_byte_to_hn a]
  | a :: b :: rest => pack_2byte_to_hn a b :: packPairs rest

/-- Embeds `IPv6Encoder._encode_data_prefix` (the data-RR hextet builder whose
first byte is the 0xff/0xfe marker, called `prefix` in the source).  `none`
models one of the two `assert`s failing. -/
def encodeDataMarked (marker index : Nat) (data : List Nat) : Option (List Nat) :=
  if data.length ≤ 14 ∧ index < 17 then
    some (pack_2byte_to_hn marker ((if index < 16 then index <<< 4 else 0) ||| data.length)
          :: packPairs data)
  else none

/-- The `while` loop of `IPv6Encoder.encode_packet`: 14-byte chunks, block
index `num_rr`, marker `0xfe` exactly when `num_rr == MAX_IPV6RR_NUM - 1 = 16`
(`is_last` in the source), `0xff` otherwise. -/
def encodeBlocks (d : List Nat) (num_rr : Nat) : Option (List (List Nat)) :=
  if h : d = [] then some []
  else
    match encodeDataMarked (if num_rr = 16 then 0xfe else 0xff) num_rr (d.take 14) with
    | none => none
    | some hextets =>
      match encodeBlocks (d.drop 14) (num_rr + 1) with
      | none => none
      | some rest => some (align_hextets hextets :: rest)
  termination_by d.length
  decreasing_by
    simp only [List.length_drop]
    have := List.length_pos.mpr h
    omega

/-- Embeds `IPv6Encoder.encode_packet`.  Each returned RR is its 8-hextet
list (`hextets_to_str` only renders these hextets as an IPv6 literal).
`none` models the `ValueError` for oversized frames or a failed assert. -/
def encode_packet (packet_data : List Nat) : Option (List (List Nat)) :=
  if 238 < packet_data.length then none
  else encodeBlocks packet_data 0

/-- Embeds `IPv6Encoder._encode_nextdomain_datasize`. -/
def encode_nextdomain_datasize (next_domain : List Nat) (data_size : Nat) : List Nat :=
  0xfe81 :: (next_domain.map pack_byte_to_hn
    ++ [pack_2byte_to_hn (if data_size ≤ 238 then 0 else 1) (data_size &&& 0xff),
        pack_ushort_to_hn ((data_size >>> 8) &&& 0xffff),
        pack_byte_to_hn ((data_size >>> 24) &&& 0xff)])

/-! ## base64.b32decode (CPython 2, `casefold=True`)

`Client.incoming_data` calls `base64.b32decode(received + "=" * padding, True)`
inside `try/except Exception`, so every exception the decoder can raise
(`binascii.Error` for bad length or padding, `TypeError` for a non-base32
digit) is observationally the same failure; `none` models all of them. -/

/-- ASCII `str.upper`: the `casefold=True` branch of `b32decode`. -/
def asciiUpper (c : Nat) : Nat :=
  if 97 ≤ c ∧ c ≤ 122 then c - 32 else c

/-- The `_b32rev` character table: `'A'..'Z'` map to `0..25`, `'2'..'7'` map
to `26..31`, everything else raises (`none`). -/
def b32rev (c : Nat) : Option Nat :=
  if 65 ≤ c ∧ c ≤ 90 then some (c - 65)
  else if 50 ≤ c ∧ c ≤ 55 then some (c - 24)
  else none

/-- The 40-bit accumulator of one (possibly partial) base32 quantum:
each character contributes `val << shift` with `shift = 35, 30, ...`. -/
def quantaVal : List Nat → Nat → Option Nat
  | [], _ => some 0
  | c :: rest, shift =>
    match b32rev c, quantaVal rest (shift - 5) with
    | some v, some a => some ((v <<< shift) + a)
    | _, _ => none

/-- `binascii.unhexlify('%010x' % acc)`: the accumulator as 5 big-endian bytes. -/
def accBytes (n : Nat) : List Nat :=
  [(n >>> 32) &&& 255, (n >>> 24) &&& 255, (n >>> 16) &&& 255, (n >>> 8) &&& 255, n &&& 255]

/-- The decoding loop of `b32decode`: full 8-character quanta each yield 5
bytes; the final partial quantum is returned as its raw accumulator. -/
def b32groups (l : List Nat) : Option (List Nat × Nat) :=
  if h : 8 ≤ l.length then
    match quantaVal (l.take 8) 35, b32groups (l.drop 8) with
    | some v, some (bs, acc) => some (accBytes v ++ bs, acc)
    | _, _ => none
  else
    (quantaVal l 35).map (fun v => ([], v))
  termination_by l.length
  decreasing_by simp only [List.length_drop]; omega

/-- Embeds CPython 2's `base64.b32decode(s, casefold=True)`:
length must be a multiple of 8; trailing `'='` (code 61) are counted and
stripped after upper-casing; the final partial quantum keeps 4, 3, 2, 1 or 0
bytes for 1, 3, 4, 6 or 0 pad characters and any other count raises. -/
def b32decode (s : List Nat) : Option (List Nat) :=
  if s.length % 8 ≠ 0 then none
  else
    let su := s.map asciiUpper
    let pad := (su.reverse.takeWhile (fun c => c == 61)).length
    let body := su.take (su.length - pad)
    match b32groups body with
    | none => none
    | some (bs, acc) =>
      match pad with
      | 0 => some bs
      | 1 => some (bs ++ (accBytes acc).take 4)
      | 3 => some (bs ++ (accBytes acc).take 3)
      | 4 => some (bs ++ (accBytes acc).take 2)
      | 6 => some (bs ++ (accBytes acc).take 1)
      | _ => none

/-! ## Fragment buffers -/

/-- Embeds `PartedData`: `(expected_size, current_size, data)`. -/
structure PartedData where
  expected_size : Nat
  current_size : Nat
  data : List Nat
  deriving DecidableEq, Repr

/-- Embeds `PartedData.reset(expected_size)` (the no-argument call in
`_initial_state` passes the default `0`). -/
def PartedData.reset (_p : PartedData) (expected_size : Nat) : PartedData :=
  ⟨expected_size, 0, []⟩

/-- Embeds `PartedData.add_part`.  The returned flag is `true` when the
`ValueError("PartedData overflow")` is raised; the overflow check precedes
every mutation, so the buffer component is returned unchanged in that case. -/
def PartedData.add_part (p : PartedData) (d : List Nat) : PartedData × Bool :=
  if p.expected_size < p.current_size + d.length then (p, true)
  else (⟨p.expected_size, p.current_size + d.length, p.data ++ d⟩, false)

/-- Embeds `PartedData.is_complete`. -/
def PartedData.is_complete (p : PartedData) : Bool :=
  p.expected_size == p.current_size

/-- Embeds `PartedData.get_expected_size`. -/
def PartedData.get_expected_size (p : PartedData) : Nat :=
  p.expected_size

/-- Embeds `BlockSizedData` (`data_size` is `len(data)`, kept derived). -/
structure BlockSizedData where
  data : List Nat
  block_size : Nat
  deriving DecidableEq, Repr

/-- Embeds `BlockSizedData.get_data`: `none` is the
`IndexError("block index out of range")`. -/
def BlockSizedData.get_data (b : BlockSizedData) (block_index : Nat) : Option (Bool × List Nat) :=
  if b.data.length ≤ block_index * b.block_size then none
  else
    let start_index := block_index * b.block_size
    let end_index := min (start_index + b.block_size) b.data.length
    some (b.data.length == end_index, (b.data.drop start_index).take (end_index - start_index))

/-- Embeds `BlockSizedData.get_size`. -/
def BlockSizedData.get_size (b : BlockSizedData) : Nat :=
  b.data.length

/-! ## Session (`Client`) -/

/-- `Client.INITIAL` / `Client.INCOMING_DATA`. -/
inductive CState where
  | INITIAL
  | INCOMING_DATA
  deriving DecidableEq, Repr

/-- One result of the per-session encoder interface: each constructor records
which `encoder.encode_*` method the session called and with which arguments.
The encoders only serialize these calls into RDATA, so session-level claims
are stated at this level. -/
inductive EncAnswer where
  | ready_receive
  | finish_send
  | send_more_data
  | registration (client_id status : Nat)
  | data_header (sub_domain : List Nat) (data_size : Nat)
  | packet (data : List Nat)
  deriving DecidableEq, Repr

/-- The caught-vs-escaping Python exceptions of the modeled methods. -/
inductive PyErr where
  | indexError
  deriving DecidableEq, Repr

/-- Embeds the session state of `Client`.  `server` is the presence of the
paired controller back-reference (`self.server is not None`); queues are FIFO
lists with the front at the head.  Loggers, locks, timestamps and the
`domain`/`client_id`/`server_id` identifier fields are omitted: no modeled
operation reads them. -/
structure Client where
  state : CState
  received_data : PartedData
  last_received_index : Int
  padding : Nat
  sub_domain : List Nat
  send_data : Option BlockSizedData
  server_queue : List (List Nat)
  client_queue : List (List Nat)
  server : Bool
  register_for_server_needed : Bool
  deriving DecidableEq, Repr

/-- A freshly constructed session (`Client.__init__`): the `padding`
attribute is only created by `_setup_receive`/`_initial_state`, and is never
read before one of them runs, so it is modeled as `0`. -/
def freshClient : Client :=
  { state := .INITIAL
    received_data := ⟨0, 0, []⟩
    last_received_index := -1
    padding := 0
    sub_domain := [97, 97, 97, 97]
    send_data := none
    server_queue := []
    client_queue := []
    server := false
    register_for_server_needed := false }

/-- Embeds `Client._initial_state`. -/
def Client.initial_state (c : Client) : Client :=
  { c with state := .INITIAL
           received_data := c.received_data.reset 0
           last_received_index := -1
           padding := 0 }

/-- Embeds `Client.is_idle`:
`not self.server and not self.received_data.is_complete()`. -/
def Client.is_idle (c : Client) : Bool :=
  !c.server && !c.received_data.is_complete

/-- Embeds `Client.incoming_data_header`.  `none` is Python's `None` return
(the request is dropped). -/
def Client.incoming_data_header (c : Client) (data_size padding : Nat) :
    Client × Option EncAnswer :=
  if c.received_data.get_expected_size = data_size ∧ c.state = .INCOMING_DATA then
    (c, some .ready_receive)
  else if c.state = .INCOMING_DATA then
    (c, none)
  else
    ({ c with state := .INCOMING_DATA
              received_data := c.received_data.reset data_size
              last_received_index := -1
              padding := padding },
     some .ready_receive)

/-- Embeds `Client.incoming_data` (the `counter` argument is parsed by the
dispatcher but never used by the method). -/
def Client.incoming_data (c : Client) (data : List Nat) (index : Nat) (_counter : Nat) :
    Client × Option EncAnswer :=
  if c.state ≠ .INCOMING_DATA then (c, some .finish_send)
  else if data.length = 0 then (c, some .finish_send)
  else if (index : Int) ≤ c.last_received_index then (c, some .send_more_data)
  else
    match c.received_data.add_part data with
    | (_, true) => (c.initial_state, some .finish_send)
    | (rd, false) =>
      let c1 := { c with received_data := rd, last_received_index := (index : Int) }
      if rd.is_complete then
        match b32decode (rd.data ++ List.replicate c1.padding 61) with
        | some packet =>
          ({ c1.initial_state with server_queue := c1.server_queue ++ [packet] },
           some .send_more_data)
        | none => (c1.initial_state, some .finish_send)
      else (c1, some .send_more_data)

/-- Embeds `Client.request_data_header`.  The outer `none` is the assertion
of `get_next_sdomain` aborting the call; `max_packet_size` is the selected
encoder's `MAX_PACKET_SIZE`.  The `Registrator.register_client_for_server`
call only touches the registry, the local `register_for_server_needed` flag
is cleared. -/
def Client.request_data_header (c : Client) (sub_domain : List Nat) (max_packet_size : Nat) :
    Option (Client × Option EncAnswer) :=
  if sub_domain = c.sub_domain then
    let c1 : Client := { c with register_for_server_needed := false }
    let c2 : Client :=
      match c1.send_data with
      | some _ => c1
      | none =>
        match c1.client_queue with
        | [] => c1
        | d :: rest =>
          { c1 with send_data := some ⟨d, max_packet_size⟩, client_queue := rest }
    match c2.send_data with
    | some sd =>
      (get_next_sdomain c2.sub_domain).map
        (fun next_sub => (c2, some (.data_header next_sub sd.get_size)))
    | none => some (c2, some (.data_header sub_domain 0))
  else
    some ({ c with sub_domain := sub_domain, send_data := none }, none)

/-- Embeds `Client.request_data`.  The `try` block covers
`send_data.get_data(index)` and `encoder.encode_packet(data)`, but the
`except ValueError` clause only catches the encoder's oversize `ValueError`;
the `IndexError` of `get_data` escapes (`.error .indexError`). -/
def Client.request_data (c : Client) (sub_domain : List Nat) (index : Nat)
    (max_packet_size : Nat) : Except PyErr (Client × Option EncAnswer) :=
  if sub_domain ≠ c.sub_domain then .ok (c, none)
  else
    match c.send_data with
    | none => .ok (c, none)
    | some sd =>
      match sd.get_data index with
      | none => .error .indexError
      | some (_, data) =>
        if max_packet_size < data.length then .ok (c, none)
        else .ok (c, some (.packet data))

/-! ## Registry (`Registrator`) -/

/-- Embeds the registry state touched by the ID-pool claims: `id_list` is the
free-ID queue, `clientMap` is the key list of the `client_id -> Client`
dictionary (the stored `Client` values are irrelevant to these claims), and
`unregister_list` is the pending-unregistration list. -/
structure Registrator where
  id_list : List Nat
  clientMap : List Nat
  unregister_list : List Nat
  deriving DecidableEq, Repr

/-- `Registrator.__init__`: the pool holds `'a'..'z'` (codes `97..122`). -/
def Registrator.start : Registrator :=
  { id_list := List.range' 97 26, clientMap := [], unregister_list := [] }

/-- Embeds `Registrator.request_client_id`: pop the front of `id_list` and
insert the key into the client map; an empty pool returns `none` and leaves
the registry unchanged. -/
def Registrator.request_client_id (r : Registrator) : Registrator × Option Nat :=
  match r.id_list with
  | [] => (r, none)
  | id :: rest =>
    ({ r with id_list := rest
              clientMap := if id ∈ r.clientMap then r.clientMap else r.clientMap ++ [id] },
     some id)

/-- Embeds `Registrator._unregister_client`: `del` of an absent key raises
`KeyError` before the pool append, and `ignored(KeyError)` swallows it, so an
unknown id is a no-op. -/
def Registrator.unregister_client_locked (r : Registrator) (client_id : Nat) : Registrator :=
  if client_id ∈ r.clientMap then
    { r with clientMap := r.clientMap.erase client_id, id_list := r.id_list ++ [client_id] }
  else r

/-- Embeds `Registrator.unregister_client(client_id, pending)`. -/
def Registrator.unregister_client (r : Registrator) (client_id : Nat) (pending : Bool) :
    Registrator :=
  if pending then { r with unregister_list := r.unregister_list ++ [client_id] }
  else r.unregister_client_locked client_id

/-- The registry states reachable from `Registrator.start` by any sequence of
`request_client_id` and `unregister_client(_, pending=False)` calls (the
sequences quantified over by the ID-pool claim). -/
inductive RegReach : Registrator → Prop where
  | start : RegReach Registrator.start
  | request {r} : RegReach r → RegReach (r.request_client_id).1
  | unregister {r} (client_id : Nat) :
      RegReach r → RegReach (r.unregister_client client_id false)

/-- The `PartedData` values reachable from a constructor call through any
sequence of `reset` and `add_part` calls (a raising `add_part` leaves the
object unchanged). -/
inductive PartedReach : PartedData → Prop where
  | init (expected_size : Nat) : PartedReach ⟨expected_size, 0, []⟩
  | reset {p} (expected_size : Nat) : PartedReach p → PartedReach (p.reset expected_size)
  | add {p} (d : List Nat) : PartedReach p → PartedReach (p.add_part d).1

/-! ## Lemmas about the subdomain counter -/

lemma validChars_cons {v : Nat} {rest : List Nat} (h : ValidChars (v :: rest)) :
    (97 ≤ v ∧ v ≤ 122) ∧ ValidChars rest :=
  ⟨h v (List.mem_cons_self v rest), fun c hc => h c (List.mem_cons_of_mem v hc)⟩

lemma validChars_reverse {l : List Nat} : ValidChars l.reverse ↔ ValidChars l := by
  constructor <;> intro h c hc <;> exact h c (by simpa [List.mem_reverse] using hc)

lemma incrementRev_eq_incRevT {l : List Nat} (h : ValidChars l) :
    incrementRev l = some (incRevT l) := by
  induction l with
  | nil => simp [incrementRev, incRevT]
  | cons v rest ih =>
    obtain ⟨⟨h1, _⟩, hrest⟩ := validChars_cons h
    have hnl : ¬ v < 97 := by omega
    by_cases h122 : 122 ≤ v <;>
      simp [incrementRev, incRevT, hnl, h122, ih hrest]

lemma incRevT_length (l : List Nat) : (incRevT l).length = l.length := by
  induction l with
  | nil => rfl
  | cons v rest ih =>
    by_cases h122 : 122 ≤ v <;> simp [incRevT, h122, ih]

lemma incRevT_valid {l : List Nat} (h : ValidChars l) : ValidChars (incRevT l) := by
  induction l with
  | nil => simp [incRevT, ValidChars]
  | cons v rest ih =>
    obtain ⟨⟨h1, h2⟩, hrest⟩ := validChars_cons h
    by_cases h122 : 122 ≤ v
    · simp only [incRevT, if_pos h122]
      intro c hc
      rcases List.mem_cons.mp hc with hc | hc
      · omega
      · exact ih hrest c hc
    · simp only [incRevT, if_neg h122]
      intro c hc
      rcases List.mem_cons.mp hc with hc | hc
      · omega
      · exact hrest c hc

lemma decRevT_valid {l : List Nat} (h : ValidChars l) : ValidChars (decRevT l) := by
  induction l with
  | nil => simp [decRevT, ValidChars]
  | cons v rest ih =>
    obtain ⟨⟨h1, h2⟩, hrest⟩ := validChars_cons h
    by_cases h97 : v = 97
    · simp only [decRevT, if_pos h97]
      intro c hc
      rcases List.mem_cons.mp hc with hc | hc
      · omega
      · exact ih hrest c hc
    · simp only [decRevT, if_neg h97]
      intro c hc
      rcases List.mem_cons.mp hc with hc | hc
      · omega
      · exact hrest c hc

lemma decRevT_incRevT {l : List Nat} (h : ValidChars l) : decRevT (incRevT l) = l := by
  induction l with
  | nil => rfl
  | cons v rest ih =>
    obtain ⟨⟨h1, h2⟩, hrest⟩ := validChars_cons h
    by_cases h122 : 122 ≤ v
    · have hv : v = 122 := by omega
      simp [incRevT, decRevT, h122, ih hrest, hv]
    · have hne : ¬ v + 1 = 97 := by omega
      simp [incRevT, decRevT, h122, hne]

lemma incRevT_decRevT {l : List Nat} (h : ValidChars l) : incRevT (decRevT l) = l := by
  induction l with
  | nil => rfl
  | cons v rest ih =>
    obtain ⟨⟨h1, h2⟩, hrest⟩ := validChars_cons h
    by_cases h97 : v = 97
    · simp [decRevT, incRevT, h97, ih hrest]
    · have hlt : ¬ 122 ≤ v - 1 := by omega
      have hv : v - 1 + 1 = v := by omega
      simp [decRevT, incRevT, h97, hlt, hv]

lemma valRev_lt {l : List Nat} (h : ValidChars l) : valRev l < 26 ^ l.length := by
  induction l with
  | nil => simp [valRev]
  | cons v rest ih =>
    obtain ⟨⟨h1, h2⟩, hrest⟩ := validChars_cons h
    have hr := ih hrest
    simp only [valRev, List.length_cons, pow_succ]
    omega

lemma valRev_incRevT {l : List Nat} (h : ValidChars l) :
    valRev (incRevT l) = (valRev l + 1) % 26 ^ l.length := by
  induction l with
  | nil => simp [incRevT, valRev]
  | cons v rest ih =>
    obtain ⟨⟨h1, h2⟩, hrest⟩ := validChars_cons h
    have hr := valRev_lt hrest
    by_cases h122 : 122 ≤ v
    · have hv : v = 122 := by omega
      have hstep : (v - 97) + 26 * valRev rest + 1 = 26 * (valRev rest + 1) := by omega
      simp only [incRevT, if_pos h122, valRev, List.length_cons, pow_succ]
      rw [hstep, ih hrest]
      have hcomm : 26 ^ rest.length * 26 = 26 * 26 ^ rest.length := by ring
      rw [hcomm, Nat.mul_mod_mul_left]
      omega
    · have hlt : (v - 97) + 26 * valRev rest + 1 < 26 ^ rest.length * 26 := by omega
      simp only [incRevT, if_neg h122, valRev, List.length_cons, pow_succ]
      rw [Nat.mod_eq_of_lt hlt]
      omega

lemma get_next_sdomain_of_valid {s : List Nat} (h : ValidChars s) :
    get_next_sdomain s = some ((incRevT s.reverse).reverse) := by
  rw [get_next_sdomain, incrementRev_eq_incRevT (validChars_reverse.mpr h), Option.map_some']

/-- The domain of the cursor: 4-character strings over `'a'..'z'`. -/
def Subdomain4 := {l : List Nat // l.length = 4 ∧ ValidChars l}

/-- `get_next_sdomain` as a total function on the 26^4-element cursor space
(by `get_next_sdomain_of_valid` it computes exactly the `some` result). -/
def nextSubdomain4 (s : Subdomain4) : Subdomain4 :=
  ⟨(incRevT s.val.reverse).reverse, by
    obtain ⟨hlen, hvalid⟩ := s.property
    refine ⟨?_, ?_⟩
    · simp [incRevT_length, hlen]
    · exact validChars_reverse.mpr (incRevT_valid (validChars_reverse.mpr hvalid))⟩

/-- Base-26 decrement on the cursor space (the inverse of `nextSubdomain4`). -/
def prevSubdomain4 (s : Subdomain4) : Subdomain4 :=
  ⟨(decRevT s.val.reverse).reverse, by
    obtain ⟨hlen, hvalid⟩ := s.property
    constructor
    · have : (decRevT s.val.reverse).length = s.val.reverse.length := by
        induction s.val.reverse with
        | nil => rfl
        | cons v rest ih => by_cases h97 : v = 97 <;> simp [decRevT, h97, ih]
      simp [this, hlen]
    · exact validChars_reverse.mpr (decRevT_valid (validChars_reverse.mpr hvalid))⟩

lemma prev_nextSubdomain4 (s : Subdomain4) : prevSubdomain4 (nextSubdomain4 s) = s := by
  obtain ⟨l, hlen, hvalid⟩ := s
  apply Subtype.ext
  simp only [prevSubdomain4, nextSubdomain4, List.reverse_reverse]
  rw [decRevT_incRevT (validChars_reverse.mpr hvalid), List.reverse_reverse]

lemma next_prevSubdomain4 (s : Subdomain4) : nextSubdomain4 (prevSubdomain4 s) = s := by
  obtain ⟨l, hlen, hvalid⟩ := s
  apply Subtype.ext
  simp only [nextSubdomain4, prevSubdomain4, List.reverse_reverse]
  rw [incRevT_decRevT (validChars_reverse.mpr hvalid), List.reverse_reverse]

lemma incrementRev_eq_none_iff (l : List Nat) :
    incrementRev l = none ↔
      (match l.dropWhile (fun v => decide (122 ≤ v)) with
       | [] => false
       | v :: _ => decide (v < 97)) = true := by
  induction l with
  | nil => simp [incrementRev, List.dropWhile]
  | cons v rest ih =>
    by_cases hlo : v < 97
    · have h122 : ¬ 122 ≤ v := by omega
      simp [incrementRev, List.dropWhile, hlo, h122]
    · by_cases h122 : 122 ≤ v
      · simpa [incrementRev, List.dropWhile, hlo, h122, Option.map_eq_none'] using ih
      · simp [incrementRev, List.dropWhile, hlo, h122]

lemma get_next_sdomain_eq_none_iff (s : List Nat) :
    get_next_sdomain s = none ↔ abortsOnCarry s = true := by
  rw [get_next_sdomain, Option.map_eq_none', incrementRev_eq_none_iff, abortsOnCarry]

/-! ## Concrete session instances used by individual claims -/

/-- A session holding a pending 10-byte outbound frame (cursor `"aaaa"`). -/
def c1Client : Client :=
  { freshClient with send_data := some ⟨[0, 1, 2, 3, 4, 5, 6, 7, 8, 9], 238⟩ }

/-- A session holding a pending 10-byte outbound frame, for the downlink
index-range claim. -/
def c3Client : Client :=
  { freshClient with send_data := some ⟨[0, 1, 2, 3, 4, 5, 6, 7, 8, 9], 238⟩ }

/-! ## Claims -/

/-- C5: `get_next_sdomain` is a bijection on the set of 4-character strings
over `'a'..'z'` (the 26^4-element space `Subdomain4`), acts as a base-26
counter whose least significant digit is the last character (incrementing
`'z'` wraps to `'a'` with carry into the next position), and maps `"zzzz"`
to `"aaaa"`. -/
theorem c5_next_subdomain_bijective_counter :
    Function.Bijective nextSubdomain4 ∧
    (∀ s : Subdomain4,
      get_next_sdomain s.val = some (nextSubdomain4 s).val ∧
      valRev (nextSubdomain4 s).val.reverse = (valRev s.val.reverse + 1) % 26 ^ 4) ∧
    get_next_sdomain [122, 122, 122, 122] = some [97, 97, 97, 97] := by
  refine ⟨⟨Function.LeftInverse.injective prev_nextSubdomain4,
           Function.RightInverse.surjective next_prevSubdomain4⟩, ?_, by decide⟩
  intro s
  obtain ⟨hlen, hvalid⟩ := s.property
  refine ⟨get_next_sdomain_of_valid hvalid, ?_⟩
  show valRev ((incRevT s.val.reverse).reverse.reverse) = _
  rw [List.reverse_reverse, valRev_incRevT (validChars_reverse.mpr hvalid),
      List.length_reverse, hlen]

/-- C10, counterexample: the claim says every input containing a character
outside `'a'..'z'` makes the assertion fail, but `"5aaa"` contains `'5'` and
`get_next_sdomain` still returns `"5aab"`: the increment loop stops at the
rightmost character and never visits the `'5'`. -/
theorem c10_counterexample :
    ¬ ValidChars [53, 97, 97, 97] ∧
    get_next_sdomain [53, 97, 97, 97] = some [53, 97, 97, 98] := by
  decide

/-- C10 (amended): on all-lowercase inputs `get_next_sdomain` is total,
length-preserving and again all-lowercase (the assertion never fires); on an
arbitrary input the call aborts if and only if, reading right to left, the
characters propagating the carry (those `≥ 'z'`) are followed by a character
below `'a'` — a bad character that the carry chain never reaches does not
abort the call. -/
theorem c10_totality_and_abort_characterization (s u : List Nat) (h : ValidChars s) :
    (get_next_sdomain s = some ((incRevT s.reverse).reverse) ∧
     ((incRevT s.reverse).reverse).length = s.length ∧
     ValidChars ((incRevT s.reverse).reverse)) ∧
    (get_next_sdomain u = none ↔ abortsOnCarry u = true) := by
  refine ⟨⟨get_next_sdomain_of_valid h, ?_, ?_⟩, get_next_sdomain_eq_none_iff u⟩
  · simp [incRevT_length]
  · exact validChars_reverse.mpr (incRevT_valid (validChars_reverse.mpr h))

/-- Witness for C10: instantiated at `"aaaz"` (valid, increments to `"aaba"`)
and `"aaz5"` (the carry from `'z'` reaches `'5'`, so the call aborts). -/
theorem c10_totality_and_abort_characterization_witness :
    (get_next_sdomain [97, 97, 97, 122] = some ((incRevT [97, 97, 97, 122].reverse).reverse) ∧
     ((incRevT [97, 97, 97, 122].reverse).reverse).length = [97, 97, 97, 122].length ∧
     ValidChars ((incRevT [97, 97, 97, 122].reverse).reverse)) ∧
    (get_next_sdomain [97, 97, 122, 53] = none ↔ abortsOnCarry [97, 97, 122, 53] = true) :=
  c10_totality_and_abort_characterization [97, 97, 97, 122] [97, 97, 122, 53] (by decide)

/-- C1, counterexample: with cursor `"aaaa"` and a pending 10-byte frame,
`request_data_header("aaaa")` returns the header advertising `"aaab"`, but
the session's stored `sub_domain` is still `"aaaa"` afterwards (the source
assigns the *local* variable `sub_domain`, not `self.sub_domain`), so the
stored cursor does not equal the advertised one. -/
theorem c1_counterexample :
    Client.request_data_header c1Client [97, 97, 97, 97] 238 =
      some (c1Client, some (.data_header [97, 97, 97, 98] 10)) ∧
    c1Client.sub_domain ≠ [97, 97, 97, 98] := by
  decide

/-- C1 (amended): for every session whose (all-lowercase) cursor equals the
polled sub_domain and that has a pending outbound frame, `request_data_header`
returns `encode_data_header(next_subdomain(sub_domain), len)` with the frame's
total size, but leaves the stored `self.sub_domain` unchanged (only the
`register_for_server_needed` flag is cleared): the advertised subdomain is
adopted later, when the implant polls with it. -/
theorem c1_request_data_header_keeps_cursor (c : Client) (sd : BlockSizedData)
    (max_packet_size : Nat) (h1 : ValidChars c.sub_domain) (h2 : c.send_data = some sd) :
    Client.request_data_header c c.sub_domain max_packet_size =
      some ({ c with register_for_server_needed := false },
            some (.data_header ((incRevT c.sub_domain.reverse).reverse) sd.get_size)) ∧
    ({ c with register_for_server_needed := false }).sub_domain = c.sub_domain := by
  refine ⟨?_, rfl⟩
  simp only [Client.request_data_header, if_pos rfl, h2]
  rw [show ({ c with register_for_server_needed := false } : Client).sub_domain
        = c.sub_domain from rfl]
  rw [get_next_sdomain_of_valid h1]
  rfl

/-- Witness for C1 (amended), at the 10-byte-frame session. -/
theorem c1_request_data_header_keeps_cursor_witness :
    Client.request_data_header c1Client c1Client.sub_domain 238 =
      some ({ c1Client with register_for_server_needed := false },
            some (.data_header ((incRevT c1Client.sub_domain.reverse).reverse)
                    (BlockSizedData.mk [0, 1, 2, 3, 4, 5, 6, 7, 8, 9] 238).get_size)) ∧
    ({ c1Client with register_for_server_needed := false }).sub_domain = c1Client.sub_domain :=
  c1_request_data_header_keeps_cursor c1Client ⟨[0, 1, 2, 3, 4, 5, 6, 7, 8, 9], 238⟩ 238
    (by decide) rfl

/-- C3 (code_bug evaluation): with a matching cursor and a 10-byte
`send_data` sliced at block size 238, `request_data` at the out-of-range
index 1 raises `IndexError` (`get_data` raises `IndexError`, the method's
`except ValueError` clause does not catch it), instead of returning nothing
as the claim states. -/
theorem c3_request_data_index_error :
    Client.request_data c3Client [97, 97, 97, 97] 1 238 = .error .indexError := by
  rfl

/-- C4 (code_bug evaluation): `is_idle` is
`not server and not received_data.is_complete()`, so a freshly created
session with no paired controller (whose empty reassembly buffer *is*
complete: `0 == 0`) reports **not** idle, while a session with a half-received
upload reports idle — the inverse of the claim on both sides. -/
theorem c4_is_idle_inverted :
    Client.is_idle freshClient = false ∧
    Client.is_idle { freshClient with
                       state := .INCOMING_DATA
                       received_data := ⟨100, 40, List.replicate 40 65⟩ } = true := by
  decide

lemma partedReach_le {p : PartedData} (h : PartedReach p) :
    p.current_size ≤ p.expected_size := by
  induction h with
  | init e => exact Nat.zero_le _
  | reset e _ _ => exact Nat.zero_le _
  | add d _ ih =>
    rename_i q _
    unfold PartedData.add_part
    split
    · exact ih
    · rename_i hno
      simp only
      omega

/-- C7: along every `reset`/`add_part` history of a `PartedData` buffer,
`current_size ≤ expected_size` holds; `add_part` raises exactly when the
append would exceed `expected_size`, leaving the buffer unchanged in that
case; and `is_complete` holds iff the two sizes are equal. -/
theorem c7_parted_data_invariant (p : PartedData) (d : List Nat) (h : PartedReach p) :
    p.current_size ≤ p.expected_size ∧
    ((p.add_part d).2 = true ↔ p.expected_size < p.current_size + d.length) ∧
    ((p.add_part d).2 = true → (p.add_part d).1 = p) ∧
    (p.is_complete = true ↔ p.current_size = p.expected_size) := by
  refine ⟨partedReach_le h, ?_, ?_, ?_⟩
  · unfold PartedData.add_part
    split
    · rename_i hc
      simpa using hc
    · rename_i hc
      simpa using hc
  · unfold PartedData.add_part
    split
    · intro _
      rfl
    · intro hfalse
      exact Bool.noConfusion hfalse
  · simp only [PartedData.is_complete, beq_iff_eq]
    exact eq_comm

/-- Witness for C7 at the buffer `(5, 3, "MFR")` reached by one `add_part`
from a fresh buffer, probed with a 2-byte part. -/
theorem c7_parted_data_invariant_witness :
    (⟨5, 3, [77, 70, 82]⟩ : PartedData).current_size ≤
      (⟨5, 3, [77, 70, 82]⟩ : PartedData).expected_size ∧
    ((PartedData.add_part ⟨5, 3, [77, 70, 82]⟩ [71, 71]).2 = true ↔
      (⟨5, 3, [77, 70, 82]⟩ : PartedData).expected_size <
        (⟨5, 3, [77, 70, 82]⟩ : PartedData).current_size + [71, 71].length) ∧
    ((PartedData.add_part ⟨5, 3, [77, 70, 82]⟩ [71, 71]).2 = true →
      (PartedData.add_part ⟨5, 3, [77, 70, 82]⟩ [71, 71]).1 = ⟨5, 3, [77, 70, 82]⟩) ∧
    ((⟨5, 3, [77, 70, 82]⟩ : PartedData).is_complete = true ↔
      (⟨5, 3, [77, 70, 82]⟩ : PartedData).current_size =
        (⟨5, 3, [77, 70, 82]⟩ : PartedData).expected_size) :=
  c7_parted_data_invariant ⟨5, 3, [77, 70, 82]⟩ [71, 71]
    (PartedReach.add [77, 70, 82] (PartedReach.init 5))

/-- C9: for a session in `INCOMING_DATA`, repeating the upload header with
the stored expected size returns `ready_receive` and changes nothing, and
repeating a chunk whose index is at most `last_received_index` returns
`send_more_data` and changes nothing. -/
theorem c9_duplicate_queries_idempotent (c : Client) (size padding : Nat)
    (data : List Nat) (index counter : Nat) (h : c.state = .INCOMING_DATA) :
    (c.received_data.expected_size = size →
      Client.incoming_data_header c size padding = (c, some .ready_receive)) ∧
    (data ≠ [] → (index : Int) ≤ c.last_received_index →
      Client.incoming_data c data index counter = (c, some .send_more_data)) := by
  constructor
  · intro hsize
    unfold Client.incoming_data_header
    rw [if_pos ⟨hsize, h⟩]
  · intro hdata hindex
    unfold Client.incoming_data
    rw [if_neg (by simp [h]), if_neg (by simpa [List.length_eq_zero] using hdata),
        if_pos hindex]

/-- Witness for C9 at a mid-upload session (expected 5, received 2 bytes,
last accepted index 0). -/
theorem c9_duplicate_queries_idempotent_witness :
    Client.incoming_data_header
        { freshClient with
            state := .INCOMING_DATA
            received_data := ⟨5, 2, [77, 70]⟩
            last_received_index := 0
            padding := 1 } 5 1 =
      ({ freshClient with
           state := .INCOMING_DATA
           received_data := ⟨5, 2, [77, 70]⟩
           last_received_index := 0
           padding := 1 }, some .ready_receive) ∧
    Client.incoming_data
        { freshClient with
            state := .INCOMING_DATA
            received_data := ⟨5, 2, [77, 70]⟩
            last_received_index := 0
            padding := 1 } [88] 0 3 =
      ({ freshClient with
           state := .INCOMING_DATA
           received_data := ⟨5, 2, [77, 70]⟩
           last_received_index := 0
           padding := 1 }, some .send_more_data) := by
  have h := c9_duplicate_queries_idempotent
    { freshClient with
        state := .INCOMING_DATA
        received_data := ⟨5, 2, [77, 70]⟩
        last_received_index := 0
        padding := 1 } 5 1 [88] 0 3 rfl
  exact ⟨h.1 rfl, h.2 (by decide) (by decide)⟩

/-- C6: for a session in `INCOMING_DATA`, the chunk that makes
`current_size` reach `expected_size` triggers the completion path: the
accumulated bytes plus `padding` many `'='` are base32-decoded; on success
the decoded packet is appended to `server_queue` and the session is reset to
`INITIAL` (returning `send_more_data`); on decode failure the session is
reset to `INITIAL` and `finish_send` is returned instead. -/
theorem c6_completion_decode (c : Client) (data : List Nat) (index counter : Nat)
    (r : Option (List Nat))
    (h1 : c.state = .INCOMING_DATA) (h2 : data ≠ [])
    (h3 : c.last_received_index < (index : Int))
    (h4 : c.received_data.current_size + data.length = c.received_data.expected_size)
    (hr : b32decode (c.received_data.data ++ data ++ List.replicate c.padding 61) = r) :
    Client.incoming_data c data index counter =
      Option.elim r
        ({ c with state := .INITIAL, received_data := ⟨0, 0, []⟩,
                  last_received_index := -1, padding := 0 },
         some .finish_send)
        (fun packet =>
          ({ c with state := .INITIAL, received_data := ⟨0, 0, []⟩,
                    last_received_index := -1, padding := 0,
                    server_queue := c.server_queue ++ [packet] },
           some .send_more_data)) := by
  unfold Client.incoming_data
  rw [if_neg (by simp [h1]), if_neg (by simpa [List.length_eq_zero] using h2),
      if_neg (not_le.mpr h3)]
  unfold PartedData.add_part
  rw [if_neg (by omega)]
  have hc : (⟨c.received_data.expected_size,
             c.received_data.current_size + data.length,
             c.received_data.data ++ data⟩ : PartedData).is_complete = true := by
    simp only [PartedData.is_complete, beq_iff_eq]
    omega
  simp only [hc, if_true]
  subst hr
  cases hb : b32decode (c.received_data.data ++ data ++ List.replicate c.padding 61) <;>
    simp only [hb] <;> rfl

/-- A mid-upload session for the completion claim: expecting 5 bytes,
having received `"MFR"`, with base32 padding 3. -/
def c6Client : Client :=
  { freshClient with
      state := .INCOMING_DATA
      received_data := ⟨5, 3, [77, 70, 82]⟩
      last_received_index := -1
      padding := 3 }

/-- Witness for C6: the chunk `"GG"` completes `"MFRGG"`, which with
`"==="` appended base32-decodes to `"abc"`; the packet is enqueued and the
session resets to `INITIAL`. -/
theorem c6_completion_decode_witness :
    Client.incoming_data c6Client [71, 71] 0 1 =
      Option.elim (some [97, 98, 99])
        ({ c6Client with state := .INITIAL, received_data := ⟨0, 0, []⟩,
                         last_received_index := -1, padding := 0 },
         some .finish_send)
        (fun packet =>
          ({ c6Client with state := .INITIAL, received_data := ⟨0, 0, []⟩,
                           last_received_index := -1, padding := 0,
                           server_queue := c6Client.server_queue ++ [packet] },
           some .send_more_data)) :=
  c6_completion_decode c6Client [71, 71] 0 1 (some [97, 98, 99])
    rfl (by decide) (by decide) (by decide)
    (by simp [c6Client, freshClient, b32decode, b32groups, quantaVal, b32rev, accBytes,
              asciiUpper, List.replicate]
        decide)

lemma regReach_perm {r : Registrator} (h : RegReach r) :
    (r.clientMap ++ r.id_list).Perm (List.range' 97 26) := by
  induction h with
  | start => exact List.Perm.refl _
  | request hr ih =>
    rename_i r0
    rcases hl : r0.id_list with _ | ⟨id, rest⟩
    · have hsame : (r0.request_client_id).1 = r0 := by
        unfold Registrator.request_client_id
        rw [hl]
      rw [hsame]
      exact ih
    · rw [hl] at ih
      have hnodup : (r0.clientMap ++ id :: rest).Nodup :=
        (ih.nodup_iff).mpr (List.nodup_range' 97 26)
      have hid : id ∉ r0.clientMap := by
        intro hmem
        rcases List.nodup_append.mp hnodup with ⟨_, _, hdisj⟩
        exact hdisj hmem (List.mem_cons_self id rest)
      have hstep : (r0.request_client_id).1 =
          { r0 with id_list := rest, clientMap := r0.clientMap ++ [id] } := by
        unfold Registrator.request_client_id
        rw [hl]
        simp [hid]
      rw [hstep]
      have heq : ((r0.clientMap ++ [id]) ++ rest : List Nat) =
          r0.clientMap ++ (id :: rest) := by
        simp
      rw [show ({ r0 with id_list := rest, clientMap := r0.clientMap ++ [id] } :
            Registrator).clientMap = r0.clientMap ++ [id] from rfl,
          show ({ r0 with id_list := rest, clientMap := r0.clientMap ++ [id] } :
            Registrator).id_list = rest from rfl, heq]
      exact ih
  | unregister cid hr ih =>
    rename_i r0
    unfold Registrator.unregister_client Registrator.unregister_client_locked
    simp only [Bool.false_eq_true, if_false]
    by_cases hmem : cid ∈ r0.clientMap
    · simp only [if_pos hmem]
      have h1 : (r0.clientMap.erase cid ++ (r0.id_list ++ [cid]) : List Nat).Perm
          ((r0.clientMap.erase cid ++ r0.id_list) ++ [cid]) := by
        rw [List.append_assoc]
      have h2 : ((r0.clientMap.erase cid ++ r0.id_list) ++ [cid] : List Nat).Perm
          ([cid] ++ (r0.clientMap.erase cid ++ r0.id_list)) := List.perm_append_comm
      have h3 : ([cid] ++ (r0.clientMap.erase cid ++ r0.id_list) : List Nat) =
          (cid :: r0.clientMap.erase cid) ++ r0.id_list := by
        simp
      have h4 : ((cid :: r0.clientMap.erase cid) ++ r0.id_list : List Nat).Perm
          (r0.clientMap ++ r0.id_list) :=
        List.Perm.append_right r0.id_list (List.perm_cons_erase hmem).symm
      exact (((h1.trans h2).trans (h3 ▸ List.Perm.refl _)).trans h4).trans ih
    · simp only [if_neg hmem]
      exact ih

/-- C8: after any sequence of `request_client_id` and
`unregister_client(_, pending=False)` calls starting from a fresh registry,
the multiset of outstanding client IDs (the keys of the client map) together
with the free pool is exactly `'a'..'z'`; outstanding IDs are pairwise
distinct; and unregistering an outstanding ID puts it back into the free
pool, so it can be allocated again. -/
theorem c8_id_pool_invariant (r : Registrator) (client_id : Nat) (h : RegReach r) :
    (r.clientMap : Multiset Nat) + (r.id_list : Multiset Nat) =
      ((List.range' 97 26 : List Nat) : Multiset Nat) ∧
    r.clientMap.Nodup ∧
    (client_id ∈ r.clientMap →
      client_id ∈ (r.unregister_client client_id false).id_list) := by
  have hperm := regReach_perm h
  refine ⟨?_, ?_, ?_⟩
  · rw [Multiset.coe_add]
    exact Multiset.coe_eq_coe.mpr hperm
  · exact (List.nodup_append.mp ((hperm.nodup_iff).mpr (List.nodup_range' 97 26))).1
  · intro hmem
    unfold Registrator.unregister_client Registrator.unregister_client_locked
    simp [hmem]

/-- The registry after one successful allocation (`'a'` outstanding). -/
def c8Registry : Registrator := (Registrator.start.request_client_id).1

/-- Witness for C8 after one `request_client_id` call, probing ID `'a'`. -/
theorem c8_id_pool_invariant_witness :
    (c8Registry.clientMap : Multiset Nat) + (c8Registry.id_list : Multiset Nat) =
      ((List.range' 97 26 : List Nat) : Multiset Nat) ∧
    c8Registry.clientMap.Nodup ∧
    (97 ∈ c8Registry.clientMap →
      97 ∈ (c8Registry.unregister_client 97 false).id_list) :=
  c8_id_pool_invariant c8Registry 97 (RegReach.request RegReach.start)

lemma packPairs_length : ∀ l : List Nat, (packPairs l).length = (l.length + 1) / 2
  | [] => by simp [packPairs]
  | [_] => by simp [packPairs]
  | _ :: _ :: rest => by
    simp only [packPairs, List.length_cons, packPairs_length rest]
    omega

lemma align_hextets_length {l : List Nat} (h : l.length ≤ 8) :
    (align_hextets l).length = 8 := by
  unfold align_hextets
  split
  · simp only [List.length_append, List.length_replicate]
    omega
  · omega

/-- The explicit layout of one step of the `encode_packet` loop: starting at
block index `n` with at most `14 * (17 - n)` bytes left, the loop never trips
an assertion and emits, for each `j`, the RR built from chunk
`d[14*j : 14*j+14]` with block index `n + j`. -/
lemma encodeBlocks_spec (d : List Nat) (n : Nat) (hlen : d.length ≤ 14 * (17 - n)) :
    encodeBlocks d n = some ((List.range ((d.length + 13) / 14)).map (fun j =>
      align_hextets
        (pack_2byte_to_hn (if n + j = 16 then 254 else 255)
          ((if n + j < 16 then (n + j) <<< 4 else 0) ||| ((d.drop (14 * j)).take 14).length)
          :: packPairs ((d.drop (14 * j)).take 14)))) := by
  by_cases hd : d = []
  · subst hd
    rw [encodeBlocks]
    simp
  · have hpos : 0 < d.length := List.length_pos.mpr hd
    have hn : n < 17 := by omega
    have htake : (d.take 14).length ≤ 14 := by
      simp [List.length_take]
    have hmark : encodeDataMarked (if n = 16 then 0xfe else 0xff) n (d.take 14) =
        some (pack_2byte_to_hn (if n = 16 then 254 else 255)
          ((if n < 16 then n <<< 4 else 0) ||| (d.take 14).length)
          :: packPairs (d.take 14)) := by
      unfold encodeDataMarked
      rw [if_pos ⟨htake, hn⟩]
    have hrec := encodeBlocks_spec (d.drop 14) (n + 1)
      (by simp only [List.length_drop]; omega)
    rw [encodeBlocks, dif_neg hd, hmark, hrec]
    have hm : (d.length + 13) / 14 = ((d.drop 14).length + 13) / 14 + 1 := by
      simp only [List.length_drop]
      omega
    rw [hm, List.range_succ_eq_map, List.map_cons, List.map_map]
    dsimp only
    refine congrArg some ?_
    rw [List.cons_eq_cons]
    constructor
    · simp
    · apply List.map_congr_left
      intro j _
      simp only [Function.comp_apply, List.drop_drop, Nat.succ_eq_add_one]
      have h1 : n + 1 + j = n + (j + 1) := by omega
      have h2 : 14 + 14 * j = 14 * (j + 1) := by ring
      rw [h1, h2]
  termination_by d.length
  decreasing_by
    simp only [List.length_drop]
    omega

/-- C2, counterexample: a 10-byte frame fits in a single RR, yet
`encode_packet` emits it with marker byte `0xff` (first hextet `0xff0a`),
not the `0xfe` the claim requires for the last RR of a packet: the source
sets `is_last` only when the block index is `MAX_IPV6RR_NUM - 1 = 16`. -/
theorem c2_counterexample :
    encode_packet [0, 1, 2, 3, 4, 5, 6, 7, 8, 9] =
      some [[65290, 1, 515, 1029, 1543, 2057, 0, 0]] ∧
    65290 >>> 8 = 0xff ∧ (0xff : Nat) ≠ 0xfe := by
  refine ⟨?_, by decide, by decide⟩
  rw [show ([0, 1, 2, 3, 4, 5, 6, 7, 8, 9] : List Nat) =
        List.range 10 from by decide]
  rw [encode_packet, if_neg (by decide), encodeBlocks_spec (List.range 10) 0 (by decide)]
  simp [align_hextets, packPairs, pack_2byte_to_hn, pack_byte_to_hn, List.range_succ]
  decide

/-- C2 (amended): for `0 < len(P) ≤ 238`, `encode_packet(P)` returns
`ceil(len(P)/14)` RRs; RR `j` is the 8-hextet (16-byte) zero-padded record
whose first hextet packs the marker byte — `0xff` for every block index
`j < 16` and `0xfe` only for block index `j = 16` (`MAX_IPV6RR_NUM - 1`),
regardless of whether the RR is the last of the packet — together with the
byte `(j << 4) | len_j` for `j < 16` (and plain `len_j` for `j = 16`),
followed by the `len_j ≤ 14` chunk bytes packed big-endian pairwise; in
particular a frame that fits in one RR is emitted with marker `0xff`. -/
theorem c2_encode_packet_layout (P : List Nat) (j : Nat)
    (h1 : 0 < P.length) (h2 : P.length ≤ 238) :
    encode_packet P = some ((List.range ((P.length + 13) / 14)).map (fun i =>
      align_hextets
        (pack_2byte_to_hn (if i = 16 then 254 else 255)
          ((if i < 16 then i <<< 4 else 0) ||| ((P.drop (14 * i)).take 14).length)
          :: packPairs ((P.drop (14 * i)).take 14)))) ∧
    (j < (P.length + 13) / 14 →
      0 < ((P.drop (14 * j)).take 14).length ∧
      ((P.drop (14 * j)).take 14).length ≤ 14 ∧
      j < 17 ∧
      (align_hextets
        (pack_2byte_to_hn (if j = 16 then 254 else 255)
          ((if j < 16 then j <<< 4 else 0) ||| ((P.drop (14 * j)).take 14).length)
          :: packPairs ((P.drop (14 * j)).take 14))).length = 8) := by
  constructor
  · rw [encode_packet, if_neg (by omega), encodeBlocks_spec P 0 (by omega)]
    congr 1
    apply List.map_congr_left
    intro i _
    rw [Nat.zero_add]
  · intro hj
    have hchunk : ((P.drop (14 * j)).take 14).length = min 14 (P.length - 14 * j) := by
      simp [List.length_take, List.length_drop]
    refine ⟨by omega, by omega, by omega, ?_⟩
    apply align_hextets_length
    simp only [List.length_cons, packPairs_length]
    omega

/-- Witness for C2 at the 10-byte frame `[0..9]` and RR index `0`. -/
theorem c2_encode_packet_layout_witness :
    encode_packet [0, 1, 2, 3, 4, 5, 6, 7, 8, 9] =
      some ((List.range ((([0, 1, 2, 3, 4, 5, 6, 7, 8, 9] : List Nat).length + 13) / 14)).map
        (fun i => align_hextets
          (pack_2byte_to_hn (if i = 16 then 254 else 255)
            ((if i < 16 then i <<< 4 else 0) |||
              ((([0, 1, 2, 3, 4, 5, 6, 7, 8, 9] : List Nat).drop (14 * i)).take 14).length)
            :: packPairs ((([0, 1, 2, 3, 4, 5, 6, 7, 8, 9] : List Nat).drop (14 * i)).take 14)))) ∧
    (0 < (([0, 1, 2, 3, 4, 5, 6, 7, 8, 9] : List Nat).length + 13) / 14 →
      0 < ((([0, 1, 2, 3, 4, 5, 6, 7, 8, 9] : List Nat).drop (14 * 0)).take 14).length ∧
      ((([0, 1, 2, 3, 4, 5, 6, 7, 8, 9] : List Nat).drop (14 * 0)).take 14).length ≤ 14 ∧
      0 < 17 ∧
      (align_hextets
        (pack_2byte_to_hn (if (0 : Nat) = 16 then 254 else 255)
          ((if (0 : Nat) < 16 then (0 : Nat) <<< 4 else 0) |||
            ((([0, 1, 2, 3, 4, 5, 6, 7, 8, 9] : List Nat).drop (14 * 0)).take 14).length)
          :: packPairs ((([0, 1, 2, 3, 4, 5, 6, 7, 8, 9] : List Nat).drop (14 * 0)).take 14))).length
        = 8) :=
  c2_encode_packet_layout [0, 1, 2, 3, 4, 5, 6, 7, 8, 9] 0 (by decide) (by decide)
